import Mathlib

/-!
A verification development for the `flake` dotfile synchronizer
(`src/main.rs`).  The program mirrors a user's home directory into a
version-controlled store at `${HOME}/.snowflakes`, committing and pushing
changes on a periodic schedule.

The embedding models:
* directory trees as association lists from relative paths to byte lists
  (`FS`), with the reconciliation walk `sync_files` / `sync_path` and the
  metadata filter `is_git_object` translated from the source;
* the repository protocol (`reset_master`, `sync_repo`, `commit_updates`,
  `push_master`, `init_sync`, `init_storage` and the `sync` loop) as a
  state machine over an explicit `Repo` record that also records an
  operation log, so that ordering and frame claims are statable;
* credential resolution (`git_credentials`) over an explicit secret-backend
  environment, with panics (`unwrap` on `None` / invalid UTF-8) modelled as
  a distinct outcome.
-/

namespace Flake

/-- A relative path, as a list of name components. -/
abbrev Path := List String

/-- File contents, as a list of bytes. -/
abbrev Bytes := List Nat

/-- A tree of regular files: an association list from relative paths to
contents.  Directories are implicit (a path is a directory of the tree when
it is a strict prefix of some file's path). -/
abbrev FS := List (Path × Bytes)

/-- Look a path up in a tree (first matching entry). -/
def fsLookup : FS → Path → Option Bytes
  | [], _ => none
  | e :: rest, p => if e.1 = p then some e.2 else fsLookup rest p

/-- Remove every entry at a path (models `fs::remove_file`). -/
def fsErase : FS → Path → FS
  | [], _ => []
  | e :: rest, p => if e.1 = p then fsErase rest p else e :: fsErase rest p

/-- Overwrite the file at a path with new contents (models `fs::copy` onto
an existing file). -/
def fsSet (fs : FS) (p : Path) (c : Bytes) : FS :=
  fsErase fs p ++ [(p, c)]

/-- `p` is a directory of the tree: a strict prefix of some file's path. -/
def isDirIn (fs : FS) (p : Path) : Bool :=
  fs.any (fun e => decide (p ≠ e.1) && p.isPrefixOf e.1)

/-- `Path::exists()` on `root/p`: true when `p` is a regular file of the
tree or a directory of the tree. -/
def fsPathExists (fs : FS) (p : Path) : Bool :=
  (fsLookup fs p).isSome || isDirIn fs p

/-- `str::starts_with`, computed on the character lists of the two
strings (equivalent to `String.startsWith`, but reducible by the
kernel). -/
def strStartsWith (s pre : String) : Bool :=
  pre.data.isPrefixOf s.data

/-- `is_git_object` from the source: the entry name starts with `".git"`.
(The source maps a non-UTF-8 name to `false`; names here are strings, so
that branch cannot fire.) -/
def is_git_object (name : String) : Bool :=
  strStartsWith name ".git"

/-- A path is pruned from the walk when any of its components starts with
`".git"`: `filter_entry` removes such an entry together with everything
beneath it. -/
def isGitPath (p : Path) : Bool :=
  p.any is_git_object

/-- `sync_path` from the source, for one file at relative path `p` of the
store.  `home` is the home tree, `ioFail` injects per-file I/O failures of
`fs::copy` / `fs::remove_file` (permissions etc.).  When `home/p` exists:
copy its contents over `store/p`; copying fails when `home/p` is a
directory.  When `home/p` does not exist: remove `store/p`.
(`home.join(sync_path)` in the source joins an absolute path, which leaves
it unchanged, so the copy source is exactly `home/p`.) -/
def sync_path (home : FS) (ioFail : Path → Bool) (store : FS) (p : Path) :
    Except Unit FS :=
  if fsPathExists home p then
    match fsLookup home p with
    | some c => if ioFail p then Except.error () else Except.ok (fsSet store p c)
    | none => Except.error ()
  else
    if ioFail p then Except.error () else Except.ok (fsErase store p)

/-- One item produced by the `walkdir` iterator: a regular-file entry, or
an `Err` entry (e.g. a file that disappeared between listing and stat). -/
inductive WalkItem where
  | ok (p : Path)
  | err
  deriving Repr, DecidableEq

/-- The store tree together with the warnings printed so far. -/
structure SyncResult where
  store : FS
  warnings : List Path
  deriving Repr, DecidableEq

/-- Outcome of a reconciliation pass: normal completion, or a panic (the
source calls `entry.unwrap()` on each walk item). -/
inductive SyncOutcome where
  | done (r : SyncResult)
  | panicked (r : SyncResult)
  deriving Repr, DecidableEq

/-- Prepend a warning to an outcome's warning list. -/
def withWarn (p : Path) : SyncOutcome → SyncOutcome
  | SyncOutcome.done r => SyncOutcome.done ⟨r.store, p :: r.warnings⟩
  | SyncOutcome.panicked r => SyncOutcome.panicked ⟨r.store, p :: r.warnings⟩

/-- `sync_files` from the source, iterating over the walk items.  An `Err`
item panics (`entry.unwrap()`).  A failing `sync_path` is logged as a
warning and the loop continues. -/
def sync_files (home : FS) (ioFail : Path → Bool) :
    List WalkItem → FS → SyncOutcome
  | [], store => SyncOutcome.done ⟨store, []⟩
  | WalkItem.err :: _, store => SyncOutcome.panicked ⟨store, []⟩
  | WalkItem.ok p :: rest, store =>
    match sync_path home ioFail store p with
    | Except.ok store1 => sync_files home ioFail rest store1
    | Except.error _ => withWarn p (sync_files home ioFail rest store)

/-- The paths the walker visits: the store's regular files, minus every
path pruned by `is_git_object`. -/
def storeWalkPaths (store : FS) : List Path :=
  (store.map Prod.fst).filter (fun p => !isGitPath p)

/-- A reconciliation pass without injected I/O failures and without walk
errors: `sync_files` over the store's own files. -/
def reconcile (home store : FS) : SyncOutcome :=
  sync_files home (fun _ => false) ((storeWalkPaths store).map WalkItem.ok) store

/-- Whether `sync_path` fails for `p` (copy failure injected by `ioFail`,
or `home/p` exists only as a directory). -/
def syncPathFails (home : FS) (ioFail : Path → Bool) (p : Path) : Bool :=
  if fsPathExists home p then
    match fsLookup home p with
    | some _ => ioFail p
    | none => true
  else ioFail p

/-- The store tree a successful `sync_path` leaves behind. -/
def syncPathApply (home store : FS) (p : Path) : FS :=
  match fsLookup home p with
  | some c => fsSet store p c
  | none => fsErase store p

/-- The store tree after processing a list of paths in order, skipping the
failing ones. -/
def reconcileFold (home : FS) (ioFail : Path → Bool) :
    List Path → FS → FS
  | [], store => store
  | p :: rest, store =>
    if syncPathFails home ioFail p then reconcileFold home ioFail rest store
    else reconcileFold home ioFail rest (syncPathApply home store p)

/-- The store tree after a failure-free reconciliation pass. -/
def reconcileResult (home store : FS) : FS :=
  reconcileFold home (fun _ => false) (storeWalkPaths store) store

/-! ### Lookup lemmas for the tree operations -/

theorem fsLookup_append_some (l1 l2 : FS) (p : Path) (c : Bytes)
    (h : fsLookup l1 p = some c) : fsLookup (l1 ++ l2) p = some c := by
  induction l1 with
  | nil => simp [fsLookup] at h
  | cons e rest ih =>
    simp only [fsLookup, List.cons_append] at h ⊢
    split at h
    · simp [*]
    · simp only [*, if_neg]
      exact ih h

theorem fsLookup_append_none (l1 l2 : FS) (p : Path)
    (h : fsLookup l1 p = none) : fsLookup (l1 ++ l2) p = fsLookup l2 p := by
  induction l1 with
  | nil => simp [fsLookup]
  | cons e rest ih =>
    simp only [fsLookup, List.cons_append] at h ⊢
    split at h
    · exact absurd h (by simp)
    · simp only [*, if_neg]
      exact ih h

theorem fsLookup_fsErase (fs : FS) (p q : Path) :
    fsLookup (fsErase fs p) q = if q = p then none else fsLookup fs q := by
  induction fs with
  | nil => simp [fsErase, fsLookup]
  | cons e rest ih =>
    simp only [fsErase]
    by_cases hep : e.1 = p
    · rw [if_pos hep, ih]
      by_cases hqp : q = p
      · simp [hqp]
      · have heq : ¬ e.1 = q := fun h => hqp (by rw [← h, hep])
        simp [fsLookup, hqp, heq]
    · rw [if_neg hep]
      by_cases heq : e.1 = q
      · have hqp : ¬ q = p := fun h => hep (by rw [heq, h])
        simp [fsLookup, heq, hqp]
      · simp [fsLookup, heq, ih]

theorem fsLookup_fsSet (fs : FS) (p : Path) (c : Bytes) (q : Path) :
    fsLookup (fsSet fs p c) q = if q = p then some c else fsLookup fs q := by
  unfold fsSet
  by_cases hqp : q = p
  · subst hqp
    have h1 : fsLookup (fsErase fs q) q = none := by simp [fsLookup_fsErase]
    rw [fsLookup_append_none _ _ _ h1]
    simp [fsLookup]
  · have h1 : fsLookup (fsErase fs p) q = fsLookup fs q := by
      simp [fsLookup_fsErase, hqp]
    cases h : fsLookup fs q with
    | some d =>
      rw [fsLookup_append_some _ _ _ d (h1.trans h)]
      simp [hqp]
    | none =>
      rw [fsLookup_append_none _ _ _ (h1.trans h)]
      simp [fsLookup, hqp, h, Ne.symm hqp]

theorem fsLookup_none_of_not_exists (fs : FS) (p : Path)
    (h : fsPathExists fs p = false) : fsLookup fs p = none := by
  unfold fsPathExists at h
  rcases Bool.or_eq_false_iff.mp h with ⟨h1, _⟩
  cases hl : fsLookup fs p with
  | none => rfl
  | some c => rw [hl] at h1; simp at h1

theorem fsLookup_syncPathApply (home store : FS) (p q : Path) :
    fsLookup (syncPathApply home store p) q =
      if q = p then fsLookup home p else fsLookup store q := by
  unfold syncPathApply
  cases h : fsLookup home p with
  | some c => simp [fsLookup_fsSet]
  | none => simp [fsLookup_fsErase]

/-! ### `sync_path` and `sync_files` characterization -/

theorem sync_path_eq (home : FS) (ioFail : Path → Bool) (store : FS) (p : Path) :
    sync_path home ioFail store p =
      if syncPathFails home ioFail p then Except.error ()
      else Except.ok (syncPathApply home store p) := by
  unfold sync_path syncPathFails syncPathApply
  cases hex : fsPathExists home p with
  | true =>
    cases hl : fsLookup home p with
    | some c => cases hf : ioFail p <;> simp [hl, hf]
    | none => simp [hl]
  | false =>
    have hl : fsLookup home p = none := fsLookup_none_of_not_exists home p hex
    cases hf : ioFail p <;> simp [hl, hf]

theorem sync_files_allOk (home : FS) (ioFail : Path → Bool) (ps : List Path)
    (store : FS) :
    sync_files home ioFail (ps.map WalkItem.ok) store =
      SyncOutcome.done
        ⟨reconcileFold home ioFail ps store,
         ps.filter (fun p => syncPathFails home ioFail p)⟩ := by
  induction ps generalizing store with
  | nil => rfl
  | cons p rest ih =>
    simp only [List.map_cons, sync_files, sync_path_eq, reconcileFold,
      List.filter_cons]
    cases hf : syncPathFails home ioFail p with
    | true => simp [hf, ih, withWarn]
    | false => simp [hf, ih]

theorem reconcileFold_lookup_notMem (home : FS) (ioFail : Path → Bool)
    (ps : List Path) (store : FS) (p : Path) (hp : p ∉ ps) :
    fsLookup (reconcileFold home ioFail ps store) p = fsLookup store p := by
  induction ps generalizing store with
  | nil => rfl
  | cons q rest ih =>
    have hpq : p ≠ q := fun h => hp (h ▸ List.mem_cons_self q rest)
    have hpr : p ∉ rest := fun h => hp (List.mem_cons_of_mem q h)
    unfold reconcileFold
    cases hf : syncPathFails home ioFail q with
    | true => simpa using ih _ hpr
    | false =>
      simp only [Bool.false_eq_true, if_false]
      rw [ih _ hpr, fsLookup_syncPathApply, if_neg hpq]

theorem reconcileFold_lookup_mem (home : FS) (ioFail : Path → Bool)
    (ps : List Path) (store : FS) (p : Path) (hnd : ps.Nodup) (hp : p ∈ ps) :
    fsLookup (reconcileFold home ioFail ps store) p =
      if syncPathFails home ioFail p then fsLookup store p
      else fsLookup home p := by
  induction ps generalizing store with
  | nil => simp at hp
  | cons q rest ih =>
    have hqr : q ∉ rest := (List.nodup_cons.mp hnd).1
    have hndr : rest.Nodup := (List.nodup_cons.mp hnd).2
    rcases List.mem_cons.mp hp with hpq | hpr
    · subst hpq
      unfold reconcileFold
      cases hf : syncPathFails home ioFail p with
      | true =>
        simp only [if_true]
        rw [reconcileFold_lookup_notMem home ioFail rest store p hqr]
      | false =>
        simp only [Bool.false_eq_true, if_false]
        rw [reconcileFold_lookup_notMem home ioFail rest _ p hqr,
          fsLookup_syncPathApply, if_pos rfl]
    · have hpq : p ≠ q := fun h => hqr (h ▸ hpr)
      unfold reconcileFold
      cases hf : syncPathFails home ioFail q with
      | true => exact ih _ hndr hpr
      | false =>
        simp only [Bool.false_eq_true, if_false]
        rw [ih _ hndr hpr, fsLookup_syncPathApply, if_neg hpq]

theorem reconcile_eq_done (home store : FS) :
    reconcile home store =
      SyncOutcome.done
        ⟨reconcileResult home store,
         (storeWalkPaths store).filter
           (fun p => syncPathFails home (fun _ => false) p)⟩ :=
  sync_files_allOk home (fun _ => false) (storeWalkPaths store) store

/-! ### UTF-8 validity (`String::from_utf8`) -/

/-- A UTF-8 continuation byte: `0x80 ..= 0xBF`. -/
def utf8Cont (b : Nat) : Bool :=
  0x80 ≤ b && b ≤ 0xBF

/-- Whether a byte list is well-formed UTF-8, following the validation
table of Rust's `core::str` (which `String::from_utf8` applies): ASCII is
one byte; two-byte sequences start `0xC2 ..= 0xDF`; three-byte sequences
start `0xE0 ..= 0xEF` with the narrowed second-byte ranges for `0xE0` and
`0xED`; four-byte sequences start `0xF0 ..= 0xF4` with the narrowed
second-byte ranges for `0xF0` and `0xF4`. -/
def utf8Valid : List Nat → Bool
  | [] => true
  | b :: rest =>
    if b ≤ 0x7F then utf8Valid rest
    else if 0xC2 ≤ b && b ≤ 0xDF then
      match rest with
      | c1 :: r => utf8Cont c1 && utf8Valid r
      | [] => false
    else if b = 0xE0 then
      match rest with
      | c1 :: c2 :: r => (0xA0 ≤ c1 && c1 ≤ 0xBF) && utf8Cont c2 && utf8Valid r
      | _ => false
    else if (0xE1 ≤ b && b ≤ 0xEC) || (0xEE ≤ b && b ≤ 0xEF) then
      match rest with
      | c1 :: c2 :: r => utf8Cont c1 && utf8Cont c2 && utf8Valid r
      | _ => false
    else if b = 0xED then
      match rest with
      | c1 :: c2 :: r => (0x80 ≤ c1 && c1 ≤ 0x9F) && utf8Cont c2 && utf8Valid r
      | _ => false
    else if b = 0xF0 then
      match rest with
      | c1 :: c2 :: c3 :: r =>
        (0x90 ≤ c1 && c1 ≤ 0xBF) && utf8Cont c2 && utf8Cont c3 && utf8Valid r
      | _ => false
    else if 0xF1 ≤ b && b ≤ 0xF3 then
      match rest with
      | c1 :: c2 :: c3 :: r =>
        utf8Cont c1 && utf8Cont c2 && utf8Cont c3 && utf8Valid r
      | _ => false
    else if b = 0xF4 then
      match rest with
      | c1 :: c2 :: c3 :: r =>
        (0x80 ≤ c1 && c1 ≤ 0x8F) && utf8Cont c2 && utf8Cont c3 && utf8Valid r
      | _ => false
    else false

/-! ### Credential resolution (`git_credentials`) -/

/-- One item of the secret store; `get_secret` may fail. -/
structure SecretItem where
  secretResult : Except Unit Bytes
  deriving Repr

/-- The secret-service environment `git_credentials` runs against:
the result of `SecretService::new` and, for each attribute list, the
result of `search_items`. -/
structure SecretBackend where
  connectResult : Except String Unit
  searchResult : List (String × String) → Except Unit (List SecretItem)

/-- The attribute tag the source uses for both storing and searching:
`vec![("github", "access_token")]`. -/
def credentialAttributes : List (String × String) :=
  [("github", "access_token")]

/-- A resolved credential: a plaintext username/token pair
(`Cred::userpass_plaintext`) or an SSH key pair (`Cred::ssh_key`).  The
token carries the secret's UTF-8 bytes. -/
inductive Cred where
  | token (username : String) (secret : Bytes)
  | sshKey (username : String) (publicKey : String) (privateKey : String)
      (passphrase : Option String)
  deriving Repr, DecidableEq

/-- Outcome of credential resolution: a credential, a `git2::Error` built
with `Error::from_str`, or a process-aborting panic (`unwrap`). -/
inductive CredOutcome where
  | ok (c : Cred)
  | err (msg : String)
  | panicked
  deriving Repr, DecidableEq

/-- Observable side effects of credential resolution. -/
inductive CredEffect where
  | connectBackend
  | searchBackend
  | getSecret
  | sshKeyPaths
  deriving Repr, DecidableEq

/-- `git_credentials` from the source.  `homeDir` is `env::home_dir()`.
For a URL starting with `"https://"`: connect to the secret service,
search for `credentialAttributes`, take item 0 (`unwrap`: empty result
panics), fetch its secret, decode it as UTF-8 (`unwrap`: invalid bytes
panic) and build a username/token credential.  Otherwise: an SSH key-pair
credential with username `"git"` at the fixed paths, no passphrase. -/
def git_credentials (homeDir username url : String) (ss : SecretBackend) :
    CredOutcome × List CredEffect :=
  if strStartsWith url "https://" then
    match ss.connectResult with
    | Except.error e =>
      (CredOutcome.err ("Unable to connect with the secret service: " ++ e),
       [CredEffect.connectBackend])
    | Except.ok _ =>
      match ss.searchResult credentialAttributes with
      | Except.error _ =>
        (CredOutcome.err
           "GitHub credentials are not in the store, use `flake auth` to set them up",
         [CredEffect.connectBackend, CredEffect.searchBackend])
      | Except.ok [] =>
        (CredOutcome.panicked,
         [CredEffect.connectBackend, CredEffect.searchBackend])
      | Except.ok (item :: _) =>
        match item.secretResult with
        | Except.error _ =>
          (CredOutcome.err "Missing access token, use `flake auth` to set it up",
           [CredEffect.connectBackend, CredEffect.searchBackend,
            CredEffect.getSecret])
        | Except.ok bytes =>
          if utf8Valid bytes then
            (CredOutcome.ok (Cred.token username bytes),
             [CredEffect.connectBackend, CredEffect.searchBackend,
              CredEffect.getSecret])
          else
            (CredOutcome.panicked,
             [CredEffect.connectBackend, CredEffect.searchBackend,
              CredEffect.getSecret])
  else
    (CredOutcome.ok
       (Cred.sshKey "git" (homeDir ++ "/.ssh/id_rsa.pub")
         (homeDir ++ "/.ssh/id_rsa") none),
     [CredEffect.sshKeyPaths])

/-! ### The repository protocol -/

/-- One commit: its message, the tree it snapshots, and the author and
committer signatures.  The parent link is the next element of the history
list it sits in. -/
structure Commit where
  message : String
  tree : FS
  author : String
  committer : String
  deriving Repr, DecidableEq

/-- Operations the protocol performs, recorded in an append-only log.
`reconcileOp` is the only operation that writes to the filesystem;
`cloneOp`, `fetchOp` and `pushOp` are the network operations. -/
inductive GitOp where
  | openOp
  | cloneOp
  | fetchOp
  | resetOp
  | statusOp
  | commitOp
  | pushOp
  | reconcileOp
  | tickOp
  deriving Repr, DecidableEq

/-- The state of the local store: the commit history of `HEAD` (most
recent first), the working tree, the repository's configured signature,
the number of pushes performed, and the operation log. -/
structure Repo where
  history : List Commit
  workTree : FS
  sig : String
  pushes : Nat
  log : List GitOp
  deriving Repr, DecidableEq

/-- The tree `HEAD` points at (empty on an unborn branch). -/
def headTree : List Commit → FS
  | [] => []
  | c :: _ => c.tree

/-- `repo.statuses(None)`: the paths at which the working tree differs
from `HEAD` (libgit2's default options include untracked files, so new
and deleted paths are reported too). -/
def statuses (head work : FS) : List Path :=
  ((head.map Prod.fst) ++ (work.map Prod.fst)).dedup.filter
    (fun p => decide (fsLookup head p ≠ fsLookup work p))

/-- `commit_updates` from the source: look up the commit `HEAD` points at
(failing on an unborn branch), stage every path (`add_all`), write the
index as a tree, and commit it on `HEAD` with message `"Update files"`,
the repository signature as both author and committer, and the old `HEAD`
commit as sole parent. -/
def commit_updates (r : Repo) : Except (String × List GitOp) Repo :=
  match r.history with
  | [] => Except.error ("reference not found", r.log)
  | _ :: _ =>
    Except.ok
      { r with
        history :=
          { message := "Update files", tree := r.workTree, author := r.sig,
            committer := r.sig } :: r.history,
        log := r.log ++ [GitOp.commitOp] }

/-- `push_master` from the source: resolve credentials and push the
master ref to `origin` (one push operation). -/
def push_master (r : Repo) : Except (String × List GitOp) Repo :=
  Except.ok { r with pushes := r.pushes + 1, log := r.log ++ [GitOp.pushOp] }

/-- `reset_master` from the source: fetch all refs from `origin`, then
hard-reset `HEAD`, index and working tree to `refs/remotes/origin/master`
(failing when that ref does not exist).  `remote` is the remote master
history, most recent first. -/
def reset_master (remote : List Commit) (r : Repo) :
    Except (String × List GitOp) Repo :=
  let r1 := { r with log := r.log ++ [GitOp.fetchOp] }
  match remote with
  | [] => Except.error ("refs/remotes/origin/master not found", r1.log)
  | c :: _ =>
    Except.ok
      { r1 with history := remote, workTree := c.tree,
                log := r1.log ++ [GitOp.resetOp] }

/-- `sync_repo` from the source: reconcile the working tree against the
home tree, query `statuses`, and commit when the result is non-empty,
otherwise push. -/
def sync_repo (home : FS) (r : Repo) : Except (String × List GitOp) Repo :=
  let wt := reconcileResult home r.workTree
  let r1 := { r with workTree := wt,
                     log := r.log ++ [GitOp.reconcileOp, GitOp.statusOp] }
  if (statuses (headTree r.history) wt).length > 0 then commit_updates r1
  else push_master r1

/-- `init_sync` from the source: one reset followed by one sync pass. -/
def init_sync (remote : List Commit) (home : FS) (r : Repo) :
    Except (String × List GitOp) Repo := do
  let r1 ← reset_master remote r
  sync_repo home r1

/-- What the path `${HOME}/.snowflakes` is on disk when the program
starts. -/
inductive PathState where
  | missing
  | dir
  | file
  deriving Repr, DecidableEq

/-- The store directory name fixed by the source. -/
def STORE_NAME : String := ".snowflakes"

/-- `init_storage` from the source: if the store path is a regular file,
print `"... is a file!"` and exit with status 1; if it is a directory,
open it; otherwise clone the remote into it (a network operation).
`local` is the repository as it would be opened from disk, and also
carries the ambient signature used for a fresh clone. -/
def init_storage (st : PathState) (lcl : Repo) (remote : List Commit) :
    Except Nat Repo :=
  match st with
  | PathState.file => Except.error 1
  | PathState.dir => Except.ok { lcl with log := [GitOp.openOp] }
  | PathState.missing =>
    Except.ok
      { history := remote, workTree := headTree remote, sig := lcl.sig,
        pushes := 0, log := [GitOp.cloneOp] }

/-- One tick of the periodic loop, then a sync pass; repeated for every
element of `homes` (the home tree as read on each tick). -/
def sync_ticks (homes : List FS) (r : Repo) :
    Except (String × List GitOp) Repo :=
  match homes with
  | [] => Except.ok r
  | h :: hs => do
    let r1 ← sync_repo h { r with log := r.log ++ [GitOp.tickOp] }
    sync_ticks hs r1

/-- The `sync` subcommand after configuration is resolved: `init_storage`,
then `init_sync` (reset plus first pass), then the periodic loop, here run
for `homes.length` ticks.  Returns the exit status (`some 1` on a fatal
error, `none` while still looping) and the operation log. -/
def sync_run (st : PathState) (lcl : Repo) (remote : List Commit)
    (home0 : FS) (homes : List FS) : Option Nat × List GitOp :=
  match init_storage st lcl remote with
  | Except.error c => (some c, [])
  | Except.ok r0 =>
    match init_sync remote home0 r0 with
    | Except.error (_, log) => (some 1, log)
    | Except.ok r1 =>
      match sync_ticks homes r1 with
      | Except.error (_, log) => (some 1, log)
      | Except.ok r2 => (none, r2.log)

/-! ### Claims about the reconciler -/

/-- Claim C1: for every regular file path `p` present under the store at
the start of a failure-free reconciliation pass, excluding `".git"`-prefixed
names, after `reconcile` completes: if `home/p` exists (as a regular file)
then `store/p` exists and is byte-identical to `home/p`, and if `home/p`
does not exist then `store/p` no longer exists. -/
theorem C1_reconcile_tracked_postcondition
    (home store : FS) (p : Path)
    (hnd : (store.map Prod.fst).Nodup)
    (htracked : p ∈ store.map Prod.fst)
    (hgit : isGitPath p = false) :
    (∀ c, fsLookup home p = some c →
      fsLookup (reconcileResult home store) p = some c)
    ∧ (fsPathExists home p = false →
      fsLookup (reconcileResult home store) p = none) := by
  have hmem : p ∈ storeWalkPaths store :=
    List.mem_filter.mpr ⟨htracked, by simp [hgit]⟩
  have hndw : (storeWalkPaths store).Nodup := hnd.filter _
  constructor
  · intro c hc
    have hfail : syncPathFails home (fun _ => false) p = false := by
      simp [syncPathFails, fsPathExists, hc]
    rw [reconcileResult, reconcileFold_lookup_mem home _ _ _ _ hndw hmem, hfail]
    simp [hc]
  · intro hex
    have hl : fsLookup home p = none := fsLookup_none_of_not_exists home p hex
    have hfail : syncPathFails home (fun _ => false) p = false := by
      simp [syncPathFails, hex]
    rw [reconcileResult, reconcileFold_lookup_mem home _ _ _ _ hndw hmem, hfail]
    simp [hl]

theorem C1_reconcile_tracked_postcondition_witness :
    ((([(["f"], [0]), (["g"], [2])] : FS).map Prod.fst).Nodup
      ∧ ["f"] ∈ ([(["f"], [0]), (["g"], [2])] : FS).map Prod.fst
      ∧ isGitPath ["f"] = false)
    ∧ ((∀ c, fsLookup [(["f"], [7])] ["f"] = some c →
        fsLookup (reconcileResult [(["f"], [7])] [(["f"], [0]), (["g"], [2])])
          ["f"] = some c)
      ∧ (fsPathExists [(["f"], [7])] ["g"] = false →
        fsLookup (reconcileResult [(["f"], [7])] [(["f"], [0]), (["g"], [2])])
          ["g"] = none)) :=
  ⟨⟨by decide, by decide, by decide⟩,
   (C1_reconcile_tracked_postcondition [(["f"], [7])] [(["f"], [0]), (["g"], [2])]
      ["f"] (by decide) (by decide) (by decide)).1,
   (C1_reconcile_tracked_postcondition [(["f"], [7])] [(["f"], [0]), (["g"], [2])]
      ["g"] (by decide) (by decide) (by decide)).2⟩

/-- Claim C3 (counterexample): a regular file that exists only in the home
tree and is not yet tracked under the store is not picked up by a
reconciliation pass — the store still lacks it afterwards, so the global
mirror invariant over all home files fails. -/
theorem C3_global_mirror_counterexample :
    fsLookup ([(["newfile"], [1])] : FS) ["newfile"] = some [1]
    ∧ isGitPath ["newfile"] = false
    ∧ reconcile [(["newfile"], [1])] [] = SyncOutcome.done ⟨[], []⟩
    ∧ fsLookup (reconcileResult [(["newfile"], [1])] []) ["newfile"] = none := by
  exact ⟨by decide, by decide, by decide, by decide⟩

/-- Claim C3 (amended): the mirror invariant holds only for the home files
that are already tracked: for every regular home file at `p` whose path is
present under the store at the start of the pass and is not
`".git"`-prefixed, after reconciliation `store/p` exists and is
byte-identical to `home/p`. -/
theorem C3_mirror_invariant_tracked (home store : FS) (p : Path) (c : Bytes)
    (hnd : (store.map Prod.fst).Nodup)
    (htracked : p ∈ store.map Prod.fst)
    (hgit : isGitPath p = false)
    (hc : fsLookup home p = some c) :
    fsLookup (reconcileResult home store) p = some c := by
  have hmem : p ∈ storeWalkPaths store :=
    List.mem_filter.mpr ⟨htracked, by simp [hgit]⟩
  have hndw : (storeWalkPaths store).Nodup := hnd.filter _
  have hfail : syncPathFails home (fun _ => false) p = false := by
    simp [syncPathFails, fsPathExists, hc]
  rw [reconcileResult, reconcileFold_lookup_mem home _ _ _ _ hndw hmem, hfail]
  simp [hc]

theorem C3_mirror_invariant_tracked_witness :
    ((([(["a"], [3])] : FS).map Prod.fst).Nodup
      ∧ ["a"] ∈ ([(["a"], [3])] : FS).map Prod.fst
      ∧ isGitPath ["a"] = false
      ∧ fsLookup [(["a"], [9])] ["a"] = some [9])
    ∧ fsLookup (reconcileResult [(["a"], [9])] [(["a"], [3])]) ["a"] = some [9] :=
  ⟨⟨by decide, by decide, by decide, by decide⟩,
   C3_mirror_invariant_tracked [(["a"], [9])] [(["a"], [3])] ["a"] [9]
     (by decide) (by decide) (by decide) (by decide)⟩

/-- Claim C8 (counterexample): an `Err` item produced by the walk itself
(e.g. a file that disappeared mid-walk) is not caught: `entry.unwrap()`
panics and the pass aborts, leaving the remaining file `["b"]`
unprocessed. -/
theorem C8_walk_error_counterexample :
    sync_files [(["a"], [1]), (["b"], [2])] (fun _ => false)
      [WalkItem.ok ["a"], WalkItem.err, WalkItem.ok ["b"]]
      [(["a"], [0]), (["b"], [0])]
    = SyncOutcome.panicked ⟨[(["b"], [0]), (["a"], [1])], []⟩ := by decide

/-- Claim C8 (amended): failures of the per-file copy/delete operation
(`sync_path`) are caught, logged as a warning, and the pass continues with
all remaining files, so no `sync_path` failure aborts the pass; but an
error yielded by the directory walk itself panics and aborts the pass (see
the counterexample).  Here: when every walk item is a regular entry, the
pass always completes, a failing file `p` is logged, and every
non-failing file is still synced to its home contents. -/
theorem C8_per_file_resilience (home store : FS) (ioFail : Path → Bool)
    (ps : List Path) (hnd : ps.Nodup) (p : Path) (hp : p ∈ ps)
    (hfail : syncPathFails home ioFail p = true) :
    ∃ res, sync_files home ioFail (ps.map WalkItem.ok) store
        = SyncOutcome.done res
      ∧ p ∈ res.warnings
      ∧ ∀ q, q ∈ ps → syncPathFails home ioFail q = false →
          fsLookup res.store q = fsLookup home q := by
  refine ⟨_, sync_files_allOk home ioFail ps store, ?_, ?_⟩
  · exact List.mem_filter.mpr ⟨hp, hfail⟩
  · intro q hq hqf
    rw [reconcileFold_lookup_mem home ioFail ps store q hnd hq, hqf]
    simp

theorem C8_per_file_resilience_witness :
    ((["a"] :: ["b"] :: []).Nodup
      ∧ ["a"] ∈ (["a"] :: ["b"] :: [])
      ∧ syncPathFails [(["b"], [5])] (fun p => decide (p = ["a"])) ["a"] = true)
    ∧ ∃ res,
        sync_files [(["b"], [5])] (fun p => decide (p = ["a"]))
          ((["a"] :: ["b"] :: []).map WalkItem.ok) [(["a"], [0]), (["b"], [0])]
        = SyncOutcome.done res
        ∧ ["a"] ∈ res.warnings
        ∧ ∀ q, q ∈ (["a"] :: ["b"] :: []) →
            syncPathFails [(["b"], [5])] (fun p => decide (p = ["a"])) q = false →
            fsLookup res.store q = fsLookup [(["b"], [5])] q :=
  ⟨⟨by decide, by decide, by decide⟩,
   C8_per_file_resilience [(["b"], [5])] [(["a"], [0]), (["b"], [0])]
     (fun p => decide (p = ["a"])) (["a"] :: ["b"] :: []) (by decide) ["a"]
     (by decide) (by decide)⟩

/-- Claim C9: a path with a `".git"`-prefixed component is never visited
by the walk and is left unchanged by reconciliation — it is neither copied
over nor deleted, and this covers everything beneath an excluded
directory, since descendants inherit the offending component. -/
theorem C9_metadata_exclusion (home store : FS) (p : Path)
    (hgit : isGitPath p = true) :
    p ∉ storeWalkPaths store
    ∧ fsLookup (reconcileResult home store) p = fsLookup store p := by
  have hnm : p ∉ storeWalkPaths store := by
    intro hmem
    have h2 := (List.mem_filter.mp hmem).2
    simp [hgit] at h2
  exact ⟨hnm,
    reconcileFold_lookup_notMem home (fun _ => false) (storeWalkPaths store)
      store p hnm⟩

theorem C9_metadata_exclusion_witness :
    isGitPath [".git", "config"] = true
    ∧ ([".git", "config"] ∉
        storeWalkPaths [([".git", "config"], [4]), (["f"], [0])]
      ∧ fsLookup
          (reconcileResult [(["f"], [1])]
            [([".git", "config"], [4]), (["f"], [0])])
          [".git", "config"]
        = fsLookup [([".git", "config"], [4]), (["f"], [0])] [".git", "config"]) :=
  ⟨by decide,
   C9_metadata_exclusion [(["f"], [1])]
     [([".git", "config"], [4]), (["f"], [0])] [".git", "config"] (by decide)⟩

/-! ### Protocol lemmas -/

theorem sync_repo_dirty (home : FS) (r : Repo) (c : Commit) (tl : List Commit)
    (hh : r.history = c :: tl)
    (hs : 0 < (statuses (headTree r.history) (reconcileResult home r.workTree)).length) :
    sync_repo home r = Except.ok
      { r with
        workTree := reconcileResult home r.workTree,
        history :=
          { message := "Update files", tree := reconcileResult home r.workTree,
            author := r.sig, committer := r.sig } :: r.history,
        log := r.log ++ [GitOp.reconcileOp, GitOp.statusOp, GitOp.commitOp] } := by
  simp only [sync_repo]
  rw [if_pos hs]
  simp [commit_updates, hh, List.append_assoc]

theorem sync_repo_clean (home : FS) (r : Repo)
    (hs : (statuses (headTree r.history) (reconcileResult home r.workTree)).length = 0) :
    sync_repo home r = Except.ok
      { r with
        workTree := reconcileResult home r.workTree,
        pushes := r.pushes + 1,
        log := r.log ++ [GitOp.reconcileOp, GitOp.statusOp, GitOp.pushOp] } := by
  simp only [sync_repo]
  rw [if_neg (by omega)]
  simp [push_master, List.append_assoc]

theorem sync_repo_spec (home : FS) (r : Repo) (hHead : r.history ≠ []) :
    ∃ r1, sync_repo home r = Except.ok r1 ∧ r1.history ≠ []
      ∧ ∃ ops, r1.log = r.log ++ ops
        ∧ GitOp.fetchOp ∉ ops ∧ GitOp.resetOp ∉ ops := by
  obtain ⟨c, tl, hh⟩ := List.exists_cons_of_ne_nil hHead
  by_cases hs :
      0 < (statuses (headTree r.history) (reconcileResult home r.workTree)).length
  · exact ⟨_, sync_repo_dirty home r c tl hh hs, by simp,
      [GitOp.reconcileOp, GitOp.statusOp, GitOp.commitOp], rfl,
      by decide, by decide⟩
  · exact ⟨_, sync_repo_clean home r (by omega), by simp [hh],
      [GitOp.reconcileOp, GitOp.statusOp, GitOp.pushOp], rfl,
      by decide, by decide⟩

theorem sync_ticks_spec (homes : List FS) (r : Repo) (hHead : r.history ≠ []) :
    ∃ r1, sync_ticks homes r = Except.ok r1
      ∧ ∃ ops, r1.log = r.log ++ ops
        ∧ GitOp.fetchOp ∉ ops ∧ GitOp.resetOp ∉ ops := by
  induction homes generalizing r with
  | nil => exact ⟨r, rfl, [], by simp, by simp, by simp⟩
  | cons h hs ih =>
    obtain ⟨r1, h1, hne1, ops1, hlog1, hf1, hr1⟩ :=
      sync_repo_spec h { r with log := r.log ++ [GitOp.tickOp] }
        (by simpa using hHead)
    obtain ⟨r2, h2, ops2, hlog2, hf2, hr2⟩ := ih r1 hne1
    refine ⟨r2, ?_, GitOp.tickOp :: (ops1 ++ ops2), ?_, ?_, ?_⟩
    · simp only [sync_ticks, h1]
      exact h2
    · rw [hlog2, hlog1]
      simp [List.append_assoc]
    · simp only [List.mem_cons, List.mem_append]
      rintro (h | h | h)
      · cases h
      · exact hf1 h
      · exact hf2 h
    · simp only [List.mem_cons, List.mem_append]
      rintro (h | h | h)
      · cases h
      · exact hr1 h
      · exact hr2 h

theorem init_sync_spec (remote : List Commit) (home0 : FS) (r0 : Repo)
    (hrem : remote ≠ []) :
    ∃ r2, init_sync remote home0 r0 = Except.ok r2 ∧ r2.history ≠ []
      ∧ ∃ ops, r2.log = r0.log ++ [GitOp.fetchOp, GitOp.resetOp] ++ ops
        ∧ GitOp.fetchOp ∉ ops ∧ GitOp.resetOp ∉ ops := by
  obtain ⟨c, tl, hrm⟩ := List.exists_cons_of_ne_nil hrem
  subst hrm
  have hreset : reset_master (c :: tl) r0 = Except.ok
      { r0 with history := c :: tl, workTree := c.tree,
                log := r0.log ++ [GitOp.fetchOp] ++ [GitOp.resetOp] } := rfl
  obtain ⟨r2, h2, hne2, ops, hlog, hf, hr⟩ :=
    sync_repo_spec home0
      { r0 with history := c :: tl, workTree := c.tree,
                log := r0.log ++ [GitOp.fetchOp] ++ [GitOp.resetOp] }
      (by simp)
  refine ⟨r2, ?_, hne2, ops, ?_, hf, hr⟩
  · simp only [init_sync, hreset]
    exact h2
  · rw [hlog]
    simp [List.append_assoc]

/-! ### Claims about the protocol -/

/-- Claim C2: a sync pass whose post-reconciliation `statuses` is
non-empty creates exactly one new commit on `HEAD` — message
`"Update files"`, author and committer both the repository signature,
parent the previous `HEAD` — and performs no push; a pass whose
`statuses` is empty performs exactly one push and creates no commit. -/
theorem C2_commit_push_ordering (home : FS) (r : Repo) (hHead : r.history ≠ []) :
    ∃ r1, sync_repo home r = Except.ok r1
      ∧ (0 < (statuses (headTree r.history) (reconcileResult home r.workTree)).length →
          r1.history =
            { message := "Update files", tree := reconcileResult home r.workTree,
              author := r.sig, committer := r.sig } :: r.history
          ∧ r1.pushes = r.pushes
          ∧ r1.log = r.log ++ [GitOp.reconcileOp, GitOp.statusOp, GitOp.commitOp])
      ∧ ((statuses (headTree r.history) (reconcileResult home r.workTree)).length = 0 →
          r1.history = r.history
          ∧ r1.pushes = r.pushes + 1
          ∧ r1.log = r.log ++ [GitOp.reconcileOp, GitOp.statusOp, GitOp.pushOp]) := by
  obtain ⟨c, tl, hh⟩ := List.exists_cons_of_ne_nil hHead
  by_cases hs :
      0 < (statuses (headTree r.history) (reconcileResult home r.workTree)).length
  · exact ⟨_, sync_repo_dirty home r c tl hh hs,
      fun _ => ⟨rfl, rfl, rfl⟩, fun h0 => absurd h0 (by omega)⟩
  · exact ⟨_, sync_repo_clean home r (by omega),
      fun h => absurd h hs, fun _ => ⟨rfl, rfl, rfl⟩⟩

theorem C2_commit_push_ordering_witness :
    ((⟨[⟨"init", [(["f"], [0])], "s", "s"⟩], [(["f"], [0])], "s", 0, []⟩ :
        Repo).history ≠ [])
    ∧ (∃ r1,
        sync_repo [(["f"], [1])]
          ⟨[⟨"init", [(["f"], [0])], "s", "s"⟩], [(["f"], [0])], "s", 0, []⟩
          = Except.ok r1
        ∧ (0 < (statuses
              (headTree (⟨[⟨"init", [(["f"], [0])], "s", "s"⟩],
                [(["f"], [0])], "s", 0, []⟩ : Repo).history)
              (reconcileResult [(["f"], [1])] [(["f"], [0])])).length →
            r1.history =
              { message := "Update files",
                tree := reconcileResult [(["f"], [1])] [(["f"], [0])],
                author := "s", committer := "s" }
                :: [⟨"init", [(["f"], [0])], "s", "s"⟩]
            ∧ r1.pushes = 0
            ∧ r1.log = [GitOp.reconcileOp, GitOp.statusOp, GitOp.commitOp])
        ∧ ((statuses
              (headTree (⟨[⟨"init", [(["f"], [0])], "s", "s"⟩],
                [(["f"], [0])], "s", 0, []⟩ : Repo).history)
              (reconcileResult [(["f"], [1])] [(["f"], [0])])).length = 0 →
            r1.history = [⟨"init", [(["f"], [0])], "s", "s"⟩]
            ∧ r1.pushes = 1
            ∧ r1.log = [GitOp.reconcileOp, GitOp.statusOp, GitOp.pushOp])) :=
  ⟨by decide,
   C2_commit_push_ordering [(["f"], [1])]
     ⟨[⟨"init", [(["f"], [0])], "s", "s"⟩], [(["f"], [0])], "s", 0, []⟩
     (by decide)⟩

/-- Claim C6: on every run that gets through initialization (the store
path is not a plain file, the remote master ref exists), the fetch and
hard-reset of `reset_master` appear exactly once in the operation log,
immediately after the open/clone and before everything else; no per-tick
pass ever fetches or hard-resets again, for any number of ticks. -/
theorem C6_steady_state_never_repulls (st : PathState) (lcl : Repo)
    (remote : List Commit) (home0 : FS) (homes : List FS)
    (hst : st ≠ PathState.file) (hrem : remote ≠ []) :
    ∃ rest,
      (sync_run st lcl remote home0 homes).1 = none
      ∧ (sync_run st lcl remote home0 homes).2
        = (if st = PathState.dir then GitOp.openOp else GitOp.cloneOp)
            :: GitOp.fetchOp :: GitOp.resetOp :: rest
      ∧ GitOp.fetchOp ∉ rest ∧ GitOp.resetOp ∉ rest := by
  have main : ∀ r0 : Repo, ∀ op : GitOp, r0.log = [op] →
      init_storage st lcl remote = Except.ok r0 →
      ∃ rest,
        (sync_run st lcl remote home0 homes).1 = none
        ∧ (sync_run st lcl remote home0 homes).2
          = op :: GitOp.fetchOp :: GitOp.resetOp :: rest
        ∧ GitOp.fetchOp ∉ rest ∧ GitOp.resetOp ∉ rest := by
    intro r0 op hlog0 hinit
    obtain ⟨r2, h2, hne2, ops1, hlog2, hf1, hr1⟩ :=
      init_sync_spec remote home0 r0 hrem
    obtain ⟨r3, h3, ops2, hlog3, hf2, hr2⟩ := sync_ticks_spec homes r2 hne2
    refine ⟨ops1 ++ ops2, ?_, ?_, ?_, ?_⟩
    · simp [sync_run, hinit, h2, h3]
    · simp only [sync_run, hinit, h2, h3]
      rw [hlog3, hlog2, hlog0]
      simp [List.append_assoc]
    · simp only [List.mem_append]
      rintro (h | h)
      · exact hf1 h
      · exact hf2 h
    · simp only [List.mem_append]
      rintro (h | h)
      · exact hr1 h
      · exact hr2 h
  cases st with
  | file => exact absurd rfl hst
  | dir =>
    simpa using main { lcl with log := [GitOp.openOp] } GitOp.openOp rfl rfl
  | missing =>
    simpa using main
      { history := remote, workTree := headTree remote, sig := lcl.sig,
        pushes := 0, log := [GitOp.cloneOp] } GitOp.cloneOp rfl rfl

theorem C6_steady_state_never_repulls_witness :
    (PathState.dir ≠ PathState.file
      ∧ ([⟨"init", [], "s", "s"⟩] : List Commit) ≠ [])
    ∧ ∃ rest,
        (sync_run PathState.dir ⟨[], [], "s", 0, []⟩ [⟨"init", [], "s", "s"⟩]
          [] [[]]).1 = none
        ∧ (sync_run PathState.dir ⟨[], [], "s", 0, []⟩ [⟨"init", [], "s", "s"⟩]
            [] [[]]).2
          = (if (PathState.dir : PathState) = PathState.dir then GitOp.openOp
              else GitOp.cloneOp)
              :: GitOp.fetchOp :: GitOp.resetOp :: rest
        ∧ GitOp.fetchOp ∉ rest ∧ GitOp.resetOp ∉ rest :=
  ⟨⟨by decide, by decide⟩,
   C6_steady_state_never_repulls PathState.dir ⟨[], [], "s", 0, []⟩
     [⟨"init", [], "s", "s"⟩] [] [[]] (by decide) (by decide)⟩

/-- Claim C7: when the store path `${HOME}/.snowflakes` exists as a
regular file, the run exits with status 1 having performed no operation at
all — the log is empty, so no clone, no fetch, and no filesystem write
(`reconcileOp` is the only operation that writes) ever happens. -/
theorem C7_storage_conflict (lcl : Repo) (remote : List Commit)
    (home0 : FS) (homes : List FS) :
    sync_run PathState.file lcl remote home0 homes = (some 1, []) := rfl

/-! ### Claims about credential resolution -/

/-- Claim C4: for a URL starting with `"https://"`, credential resolution
only talks to the secret backend — any successful outcome is a `Token`
credential pairing the given username with the stored secret, and the
SSH key paths are never touched; for any other URL, resolution yields the
`KeyPair` credential at `~/.ssh/id_rsa` / `~/.ssh/id_rsa.pub` with fixed
username `"git"` and no passphrase, and never queries the secret
backend. -/
theorem C4_credential_dispatch (homeDir username url : String)
    (ss : SecretBackend) :
    (strStartsWith url "https://" = true →
      (∀ c, (git_credentials homeDir username url ss).1 = CredOutcome.ok c →
        ∃ item rest bytes,
          ss.searchResult credentialAttributes = Except.ok (item :: rest)
          ∧ item.secretResult = Except.ok bytes
          ∧ c = Cred.token username bytes)
      ∧ CredEffect.sshKeyPaths ∉ (git_credentials homeDir username url ss).2)
    ∧ (strStartsWith url "https://" = false →
      git_credentials homeDir username url ss
        = (CredOutcome.ok
            (Cred.sshKey "git" (homeDir ++ "/.ssh/id_rsa.pub")
              (homeDir ++ "/.ssh/id_rsa") none),
           [CredEffect.sshKeyPaths])
      ∧ CredEffect.connectBackend ∉ (git_credentials homeDir username url ss).2
      ∧ CredEffect.searchBackend ∉ (git_credentials homeDir username url ss).2
      ∧ CredEffect.getSecret ∉ (git_credentials homeDir username url ss).2) := by
  constructor
  · intro hurl
    cases h1 : ss.connectResult with
    | error e =>
      have heq : git_credentials homeDir username url ss
          = (CredOutcome.err ("Unable to connect with the secret service: " ++ e),
             [CredEffect.connectBackend]) := by
        simp [git_credentials, hurl, h1]
      refine ⟨fun c hcc => ?_, ?_⟩
      · rw [heq] at hcc
        simp at hcc
      · rw [heq]
        simp
    | ok u =>
      cases h2 : ss.searchResult credentialAttributes with
      | error e2 =>
        have heq : git_credentials homeDir username url ss
            = (CredOutcome.err
                "GitHub credentials are not in the store, use `flake auth` to set them up",
               [CredEffect.connectBackend, CredEffect.searchBackend]) := by
          simp [git_credentials, hurl, h1, h2]
        refine ⟨fun c hcc => ?_, ?_⟩
        · rw [heq] at hcc
          simp at hcc
        · rw [heq]
          simp
      | ok items =>
        cases items with
        | nil =>
          have heq : git_credentials homeDir username url ss
              = (CredOutcome.panicked,
                 [CredEffect.connectBackend, CredEffect.searchBackend]) := by
            simp [git_credentials, hurl, h1, h2]
          refine ⟨fun c hcc => ?_, ?_⟩
          · rw [heq] at hcc
            simp at hcc
          · rw [heq]
            simp
        | cons item rest =>
          cases h3 : item.secretResult with
          | error e3 =>
            have heq : git_credentials homeDir username url ss
                = (CredOutcome.err
                    "Missing access token, use `flake auth` to set it up",
                   [CredEffect.connectBackend, CredEffect.searchBackend,
                    CredEffect.getSecret]) := by
              simp [git_credentials, hurl, h1, h2, h3]
            refine ⟨fun c hcc => ?_, ?_⟩
            · rw [heq] at hcc
              simp at hcc
            · rw [heq]
              simp
          | ok bytes =>
            by_cases hv : utf8Valid bytes = true
            · have heq : git_credentials homeDir username url ss
                  = (CredOutcome.ok (Cred.token username bytes),
                     [CredEffect.connectBackend, CredEffect.searchBackend,
                      CredEffect.getSecret]) := by
                simp [git_credentials, hurl, h1, h2, h3, hv]
              refine ⟨fun c hcc => ?_, ?_⟩
              · rw [heq] at hcc
                simp only [CredOutcome.ok.injEq] at hcc
                exact ⟨item, rest, bytes, rfl, h3, hcc.symm⟩
              · rw [heq]
                simp
            · have heq : git_credentials homeDir username url ss
                  = (CredOutcome.panicked,
                     [CredEffect.connectBackend, CredEffect.searchBackend,
                      CredEffect.getSecret]) := by
                simp [git_credentials, hurl, h1, h2, h3, hv]
              refine ⟨fun c hcc => ?_, ?_⟩
              · rw [heq] at hcc
                simp at hcc
              · rw [heq]
                simp
  · intro hurl
    have heq : git_credentials homeDir username url ss
        = (CredOutcome.ok
            (Cred.sshKey "git" (homeDir ++ "/.ssh/id_rsa.pub")
              (homeDir ++ "/.ssh/id_rsa") none),
           [CredEffect.sshKeyPaths]) := by
      simp only [git_credentials]
      rw [if_neg (by simp [hurl])]
    refine ⟨heq, ?_, ?_, ?_⟩ <;> rw [heq] <;> simp

theorem C4_credential_dispatch_witness :
    (strStartsWith "https://github.com/d" "https://" = true
      ∧ strStartsWith "git@github.com:d" "https://" = false)
    ∧ ((∀ c,
        (git_credentials "/home/u" "alice" "https://github.com/d"
          ⟨Except.ok (), fun _ => Except.ok [⟨Except.ok [104]⟩]⟩).1
          = CredOutcome.ok c →
        ∃ item rest bytes,
          (⟨Except.ok (), fun _ => Except.ok [⟨Except.ok [104]⟩]⟩ :
            SecretBackend).searchResult credentialAttributes
            = Except.ok (item :: rest)
          ∧ item.secretResult = Except.ok bytes
          ∧ c = Cred.token "alice" bytes)
      ∧ CredEffect.sshKeyPaths ∉
          (git_credentials "/home/u" "alice" "https://github.com/d"
            ⟨Except.ok (), fun _ => Except.ok [⟨Except.ok [104]⟩]⟩).2)
    ∧ (git_credentials "/home/u" "alice" "git@github.com:d"
          ⟨Except.ok (), fun _ => Except.ok [⟨Except.ok [104]⟩]⟩
        = (CredOutcome.ok
            (Cred.sshKey "git" "/home/u/.ssh/id_rsa.pub" "/home/u/.ssh/id_rsa"
              none),
           [CredEffect.sshKeyPaths])
      ∧ CredEffect.connectBackend ∉
          (git_credentials "/home/u" "alice" "git@github.com:d"
            ⟨Except.ok (), fun _ => Except.ok [⟨Except.ok [104]⟩]⟩).2
      ∧ CredEffect.searchBackend ∉
          (git_credentials "/home/u" "alice" "git@github.com:d"
            ⟨Except.ok (), fun _ => Except.ok [⟨Except.ok [104]⟩]⟩).2
      ∧ CredEffect.getSecret ∉
          (git_credentials "/home/u" "alice" "git@github.com:d"
            ⟨Except.ok (), fun _ => Except.ok [⟨Except.ok [104]⟩]⟩).2) :=
  ⟨⟨by decide, by decide⟩,
   (C4_credential_dispatch "/home/u" "alice" "https://github.com/d"
      ⟨Except.ok (), fun _ => Except.ok [⟨Except.ok [104]⟩]⟩).1 (by decide),
   (C4_credential_dispatch "/home/u" "alice" "git@github.com:d"
      ⟨Except.ok (), fun _ => Except.ok [⟨Except.ok [104]⟩]⟩).2 (by decide)⟩

/-- Claim C5 (code evaluation): for an https URL, an unreachable backend
yields the backend-unavailable error and an unretrievable secret yields
the credentials-missing error, as claimed; but when the backend is
reachable and the search succeeds with an empty item list (nothing
stored), `items.get(0).unwrap()` panics instead of returning the
credentials-missing error value. -/
theorem C5_credential_failure_semantics :
    (git_credentials "/home/u" "alice" "https://github.com/dotfiles"
        ⟨Except.error "dbus error", fun _ => Except.ok []⟩).1
      = CredOutcome.err "Unable to connect with the secret service: dbus error"
    ∧ (git_credentials "/home/u" "alice" "https://github.com/dotfiles"
        ⟨Except.ok (), fun _ => Except.ok [⟨Except.error ()⟩]⟩).1
      = CredOutcome.err "Missing access token, use `flake auth` to set it up"
    ∧ (git_credentials "/home/u" "alice" "https://github.com/dotfiles"
        ⟨Except.ok (), fun _ => Except.ok []⟩).1
      = CredOutcome.panicked :=
  ⟨rfl, rfl, rfl⟩

/-- Claim C10: for an https URL, a `Token` credential is produced only
when the stored secret bytes are valid UTF-8 (`String::from_utf8` must
succeed), and retrieving secret bytes that are not valid UTF-8 makes
resolution panic (`unwrap`), not return an error value. -/
theorem C10_token_requires_utf8 (homeDir username url : String)
    (ss : SecretBackend) (hurl : strStartsWith url "https://" = true) :
    (∀ u bytes,
      (git_credentials homeDir username url ss).1
        = CredOutcome.ok (Cred.token u bytes) → utf8Valid bytes = true)
    ∧ (∀ item rest bytes,
        ss.connectResult = Except.ok ()
        → ss.searchResult credentialAttributes = Except.ok (item :: rest)
        → item.secretResult = Except.ok bytes
        → utf8Valid bytes = false
        → (git_credentials homeDir username url ss).1 = CredOutcome.panicked) := by
  constructor
  · intro u bytes hcc
    cases h1 : ss.connectResult with
    | error e =>
      have heq : git_credentials homeDir username url ss
          = (CredOutcome.err ("Unable to connect with the secret service: " ++ e),
             [CredEffect.connectBackend]) := by
        simp [git_credentials, hurl, h1]
      rw [heq] at hcc
      simp at hcc
    | ok uu =>
      cases h2 : ss.searchResult credentialAttributes with
      | error e2 =>
        have heq : git_credentials homeDir username url ss
            = (CredOutcome.err
                "GitHub credentials are not in the store, use `flake auth` to set them up",
               [CredEffect.connectBackend, CredEffect.searchBackend]) := by
          simp [git_credentials, hurl, h1, h2]
        rw [heq] at hcc
        simp at hcc
      | ok items =>
        cases items with
        | nil =>
          have heq : git_credentials homeDir username url ss
              = (CredOutcome.panicked,
                 [CredEffect.connectBackend, CredEffect.searchBackend]) := by
            simp [git_credentials, hurl, h1, h2]
          rw [heq] at hcc
          simp at hcc
        | cons item rest =>
          cases h3 : item.secretResult with
          | error e3 =>
            have heq : git_credentials homeDir username url ss
                = (CredOutcome.err
                    "Missing access token, use `flake auth` to set it up",
                   [CredEffect.connectBackend, CredEffect.searchBackend,
                    CredEffect.getSecret]) := by
              simp [git_credentials, hurl, h1, h2, h3]
            rw [heq] at hcc
            simp at hcc
          | ok bytes0 =>
            by_cases hv : utf8Valid bytes0 = true
            · have heq : git_credentials homeDir username url ss
                  = (CredOutcome.ok (Cred.token username bytes0),
                     [CredEffect.connectBackend, CredEffect.searchBackend,
                      CredEffect.getSecret]) := by
                simp [git_credentials, hurl, h1, h2, h3, hv]
              rw [heq] at hcc
              simp only [CredOutcome.ok.injEq, Cred.token.injEq] at hcc
              rw [← hcc.2]
              exact hv
            · have heq : git_credentials homeDir username url ss
                  = (CredOutcome.panicked,
                     [CredEffect.connectBackend, CredEffect.searchBackend,
                      CredEffect.getSecret]) := by
                simp [git_credentials, hurl, h1, h2, h3, hv]
              rw [heq] at hcc
              simp at hcc
  · intro item rest bytes h1 h2 h3 h4
    have heq : git_credentials homeDir username url ss
        = (CredOutcome.panicked,
           [CredEffect.connectBackend, CredEffect.searchBackend,
            CredEffect.getSecret]) := by
      simp [git_credentials, hurl, h1, h2, h3, h4]
    rw [heq]

theorem C10_token_requires_utf8_witness :
    strStartsWith "https://github.com/d" "https://" = true
    ∧ ((∀ u bytes,
        (git_credentials "/home/u" "alice" "https://github.com/d"
          ⟨Except.ok (), fun _ => Except.ok [⟨Except.ok [255]⟩]⟩).1
          = CredOutcome.ok (Cred.token u bytes) → utf8Valid bytes = true)
      ∧ (∀ item rest bytes,
          (⟨Except.ok (), fun _ => Except.ok [⟨Except.ok [255]⟩]⟩ :
            SecretBackend).connectResult = Except.ok ()
          → (⟨Except.ok (), fun _ => Except.ok [⟨Except.ok [255]⟩]⟩ :
              SecretBackend).searchResult credentialAttributes
              = Except.ok (item :: rest)
          → item.secretResult = Except.ok bytes
          → utf8Valid bytes = false
          → (git_credentials "/home/u" "alice" "https://github.com/d"
              ⟨Except.ok (), fun _ => Except.ok [⟨Except.ok [255]⟩]⟩).1
            = CredOutcome.panicked)) :=
  ⟨by decide,
   C10_token_requires_utf8 "/home/u" "alice" "https://github.com/d"
     ⟨Except.ok (), fun _ => Except.ok [⟨Except.ok [255]⟩]⟩ (by decide)⟩

end Flake
